import Mathlib

/-!
Verification development for the extractor/merger pipeline
(`src/chunking/text_chunker.py`, `src/processing/parallel_processor.py`,
`src/merging/result_merger.py`, `src/utils/validators.py`).

Python code is shallowly embedded: machine-level details that are irrelevant
to the repository (logging, timing, prompt text) are dropped, everything that
affects the returned values is modelled, including Python truthiness,
`x or default` argument substitution, negative-step `range`, slice semantics
and exceptions (as `Except`).
-/

namespace ExtractorMerger

/-! ### Python string and list primitives -/

/-- Python `needle in haystack` on lists of characters: contiguous
sublist test, scanning left to right. -/
def charsPrefixOf : List Char → List Char → Bool
  | [], _ => true
  | _ :: _, [] => false
  | a :: as, b :: bs => a == b && charsPrefixOf as bs

/-- Contiguous-sublist test used for Python substring membership. -/
def charsInfixOf (n : List Char) : List Char → Bool
  | [] => charsPrefixOf n []
  | c :: cs => charsPrefixOf n (c :: cs) || charsInfixOf n cs

/-- Python `needle in haystack` for strings (substring containment). -/
def strIn (needle hay : String) : Bool :=
  charsInfixOf needle.data hay.data

/-- Accumulator loop for `pySplit`: `cur` holds the reversed characters of
the word being read. -/
def pySplitGo : List Char → List Char → List String
  | cur, [] => if cur.isEmpty then [] else [⟨cur.reverse⟩]
  | cur, c :: cs =>
    if c.isWhitespace then
      if cur.isEmpty then pySplitGo [] cs
      else ⟨cur.reverse⟩ :: pySplitGo [] cs
    else pySplitGo (c :: cur) cs

/-- Python `text.split()`: split on whitespace runs, dropping empty pieces. -/
def pySplit (s : String) : List String :=
  pySplitGo [] s.data

/-- Python `' '.join(ws)`. -/
def joinWords (ws : List String) : String :=
  String.intercalate " " ws

/-- Python `l[start:stop]` for a nonnegative `start` and an arbitrary
integer `stop` (negative `stop` counts from the end, then is clamped). -/
def pySlice (l : List α) (start : Nat) (stop : Int) : List α :=
  let n : Int := l.length
  let stopN : Nat := if stop < 0 then (n + stop).toNat else min stop.toNat l.length
  (l.drop start).take (stopN - start)

/-- Python `range(0, n, step)` for a positive `step`:
`[0, step, 2*step, ...)` below `n`. -/
def pyStarts (n step : Nat) : List Nat :=
  (List.range ((n + step - 1) / step)).map (fun k => k * step)

/-- Python `x or default` for integer arguments with an optional value:
`None` and `0` are falsy and replaced by the default. -/
def resolveInt (x : Option Int) (d : Int) : Int :=
  match x with
  | none => d
  | some v => if v = 0 then d else v

/-- Python `x or default` for string arguments: `None` and `""` are falsy. -/
def resolveStr (x : Option String) (d : String) : String :=
  match x with
  | none => d
  | some v => if v = "" then d else v

/-! ### Segmenter (`src/chunking/text_chunker.py`, `chunk_text`)

Settings defaults (from `src/config/settings.py`):
`CHUNK_SIZE = 1000`, `CHUNK_OVERLAP = 100`, `MIN_CHUNK_SIZE = 200`. -/

def settingsCHUNK_SIZE : Int := 1000

def settingsCHUNK_OVERLAP : Int := 100

def settingsMIN_CHUNK_SIZE : Int := 200

/-- Error value standing for Python's `ValueError` from `range(..., 0)`. -/
def rangeZeroStepError : String := "ValueError: range() arg 3 must not be zero"

/-- Body of `chunk_text` after the `x or settings.X` argument resolution.
`words = text.split()`; texts no longer than `chunk_size` are returned whole;
otherwise windows of `chunk_size` words are taken every
`chunk_size - chunk_overlap` words, a window shorter than `min_chunk_size`
being skipped unless `i + chunk_size >= len(words)`.  A zero window step is
Python's `ValueError`; a negative step makes `range` empty. -/
def chunk_text_core (text : String) (chunk_size chunk_overlap min_chunk_size : Int) :
    Except String (List String) :=
  let words := pySplit text
  if (words.length : Int) ≤ chunk_size then
    Except.ok [text]
  else
    let step : Int := chunk_size - chunk_overlap
    if step = 0 then
      Except.error rangeZeroStepError
    else if step < 0 then
      Except.ok []
    else
      Except.ok <|
        (pyStarts words.length step.toNat).foldl
          (fun chunks i =>
            let chunk_words := pySlice words i ((i : Int) + chunk_size)
            if (chunk_words.length : Int) < min_chunk_size ∧ (i : Int) + chunk_size < (words.length : Int) then
              chunks
            else
              chunks ++ [joinWords chunk_words])
          []

/-- `chunk_text(text, chunk_size, chunk_overlap, min_chunk_size)`:
each argument defaults through Python `or` to its settings value. -/
def chunk_text (text : String) (chunk_size chunk_overlap min_chunk_size : Option Int) :
    Except String (List String) :=
  chunk_text_core text (resolveInt chunk_size settingsCHUNK_SIZE)
    (resolveInt chunk_overlap settingsCHUNK_OVERLAP)
    (resolveInt min_chunk_size settingsMIN_CHUNK_SIZE)

/-! ### Batch Executor (`src/processing/parallel_processor.py`,
`process_chunks_parallel`)

The process function may raise (`Except.error`); a raised exception is caught
per chunk and recorded as `None` (`Option.none`).  The nondeterministic order
in which `concurrent.futures.as_completed` yields the futures of one batch is
made explicit: each batch takes a list `ord` of in-batch indices (its
completion order), which in any real execution is a permutation of
`0 .. len(batch)-1`.  `batch_results.sort(key=lambda x: x[0])` is modelled by
insertion sort on the first component (keys are distinct, so any sort agrees).

Settings defaults (from `src/config/settings.py`):
`MAX_THREADS = 5`, `BATCH_SIZE = 10`. -/

def settingsMAX_THREADS : Int := 5

def settingsBATCH_SIZE : Int := 10

/-- Ordering on `(index, result)` pairs used to model
`batch_results.sort(key=lambda x: x[0])`. -/
def keyLe (a b : Nat × α) : Prop := a.1 ≤ b.1

instance : DecidableRel (keyLe (α := α)) := fun a b => Nat.decLe a.1 b.1

instance : IsTotal (Nat × α) keyLe := ⟨fun a b => Nat.le_total a.1 b.1⟩

instance : IsTrans (Nat × α) keyLe := ⟨fun _ _ _ h h' => Nat.le_trans h h'⟩

/-- One batch: submit `process_func(chunk, idx)` for every `(idx, chunk)` in
`enumerate(batch)`, collect `(idx, result-or-None)` in completion order `ord`,
sort by index. -/
def batchResults (f : α → Nat → Except ε β) (batch : List α) (ord : List Nat) :
    List (Nat × Option β) :=
  List.insertionSort keyLe
    (ord.map (fun j => (j, (batch[j]?).bind (fun c => (f c j).toOption))))

/-- The batch loop: slices of `B` chunks, each producing its sorted results,
concatenated in batch order.  `orders` supplies the completion order of each
successive batch. -/
def runBatches (f : α → Nat → Except ε β) (B : Nat) :
    List (List Nat) → List α → List (Option β)
  | _, [] => []
  | orders, c :: cs =>
    if _h : B = 0 then [] else
      let chunks := c :: cs
      let batch := chunks.take B
      (batchResults f batch (orders.headD [])).map Prod.snd ++
        runBatches f B orders.tail (chunks.drop B)
termination_by _ chunks => chunks.length
decreasing_by
  simp only [List.length_drop, List.length_cons]
  omega

/-- `process_chunks_parallel(chunks, process_func, max_workers, batch_size)`.
A zero (resolved) batch size raises `ValueError` from `range`; a negative one
makes the batch loop empty; with chunks pending, a nonpositive worker count
raises `ValueError` from `ThreadPoolExecutor`. -/
def process_chunks_parallel (chunks : List α) (f : α → Nat → Except ε β)
    (orders : List (List Nat)) (max_workers batch_size : Option Int) :
    Except String (List (Option β)) :=
  let W := resolveInt max_workers settingsMAX_THREADS
  let B := resolveInt batch_size settingsBATCH_SIZE
  if B = 0 then
    Except.error rangeZeroStepError
  else if B < 0 then
    Except.ok []
  else if chunks.isEmpty = false ∧ W ≤ 0 then
    Except.error "ValueError: max_workers must be greater than 0"
  else
    Except.ok (runBatches f B.toNat orders chunks)

/-- The completion orders really are per-batch permutations of the in-batch
indices: this is what any execution of the thread pool produces. -/
inductive ValidOrders (B : Nat) : List α → List (List Nat) → Prop
  | nil (orders : List (List Nat)) : ValidOrders B [] orders
  | cons {chunks : List α} {ord : List Nat} {orders : List (List Nat)}
      (hperm : ord.Perm (List.range (chunks.take B).length))
      (hrest : ValidOrders B (chunks.drop B) orders) :
      ValidOrders B chunks (ord :: orders)

/-! ### Batch Executor lemmas -/

/-- Sorting by index a permutation of `(0, g 0), ..., (n-1, g (n-1))` recovers
the submission-ordered list, whatever the completion order was. -/
lemma insertionSort_keyed_range {β : Type*} (g : Nat → β) (ord : List Nat) (n : Nat)
    (h : ord.Perm (List.range n)) :
    List.insertionSort keyLe (ord.map (fun j => (j, g j))) =
      (List.range n).map (fun j => (j, g j)) := by
  haveI : IsAntisymm (Nat × β) (fun a b => a.1 < b.1) :=
    ⟨fun a b hab hba => absurd hba (Nat.lt_asymm hab)⟩
  have hperm : (List.insertionSort keyLe (ord.map (fun j => (j, g j)))).Perm
      ((List.range n).map (fun j => (j, g j))) :=
    (List.perm_insertionSort _ _).trans (h.map _)
  have hr : ((List.range n).map (fun j => (j, g j))).Pairwise
      (fun a b => a.1 < b.1) := by
    rw [List.pairwise_map]
    exact List.pairwise_lt_range n
  have hs : (List.insertionSort keyLe (ord.map (fun j => (j, g j)))).Pairwise keyLe :=
    List.sorted_insertionSort keyLe _
  have hnd : ((List.insertionSort keyLe (ord.map (fun j => (j, g j)))).map
      Prod.fst).Nodup := by
    refine ((hperm.map Prod.fst).nodup_iff).mpr ?_
    have hmm : ((List.range n).map (fun j => (j, g j))).map Prod.fst = List.range n := by
      rw [List.map_map]
      have hid : (Prod.fst ∘ fun j : Nat => (j, g j)) = id := rfl
      rw [hid, List.map_id]
    rw [hmm]
    exact List.nodup_range n
  have hne : (List.insertionSort keyLe (ord.map (fun j => (j, g j)))).Pairwise
      (fun a b => a.1 ≠ b.1) := List.pairwise_map.mp hnd
  have hlt : (List.insertionSort keyLe (ord.map (fun j => (j, g j)))).Pairwise
      (fun a b => a.1 < b.1) :=
    (hs.and hne).imp (fun hab => Nat.lt_of_le_of_ne hab.1 hab.2)
  exact List.eq_of_perm_of_sorted hperm hlt hr

/-- The per-batch output, read off after sorting: the `j`-th entry is the
(caught) result of `process_func(batch[j], j)`. -/
lemma batchResults_spec (f : α → Nat → Except ε β) (batch : List α) (ord : List Nat)
    (h : ord.Perm (List.range batch.length)) :
    (batchResults f batch ord).map Prod.snd =
      (List.range batch.length).map
        (fun j => (batch[j]?).bind (fun c => (f c j).toOption)) := by
  unfold batchResults
  have hkey : List.insertionSort keyLe
      (ord.map (fun j => (j, (batch[j]?).bind (fun c => (f c j).toOption)))) =
      (List.range batch.length).map
        (fun j => (j, (batch[j]?).bind (fun c => (f c j).toOption))) :=
    insertionSort_keyed_range (fun j => (batch[j]?).bind (fun c => (f c j).toOption))
      ord batch.length h
  rw [hkey, List.map_map]
  rfl

lemma runBatches_nil (f : α → Nat → Except ε β) (B : Nat) (orders : List (List Nat)) :
    runBatches f B orders [] = [] := by
  rw [runBatches]

lemma runBatches_cons (f : α → Nat → Except ε β) {B : Nat} (hB : ¬ (B = 0))
    (orders : List (List Nat)) (c : α) (cs : List α) :
    runBatches f B orders (c :: cs) =
      (batchResults f ((c :: cs).take B) (orders.headD [])).map Prod.snd ++
        runBatches f B orders.tail ((c :: cs).drop B) := by
  rw [runBatches]
  simp [hB]

/-- Full batch-loop specification: the output has one entry per chunk, in
submission order; entry `k` is the caught result of the process function on
chunk `k` (called with its in-batch index `k % B`). -/
lemma runBatches_spec (f : α → Nat → Except ε β) {B : Nat} (hB : 0 < B) :
    ∀ (chunks : List α) (orders : List (List Nat)), ValidOrders B chunks orders →
      (runBatches f B orders chunks).length = chunks.length ∧
      ∀ k (hk : k < chunks.length),
        (runBatches f B orders chunks)[k]? =
          some ((f (chunks.get ⟨k, hk⟩) (k % B)).toOption) := by
  intro chunks orders hvalid
  induction hvalid with
  | nil orders =>
    constructor
    · simp [runBatches_nil]
    · intro k hk; exact absurd hk (Nat.not_lt_zero k)
  | @cons chunks ord orders hperm hrest ih =>
    match chunks with
    | [] =>
      constructor
      · simp [runBatches_nil]
      · intro k hk; exact absurd hk (Nat.not_lt_zero k)
    | c :: cs =>
      have hBne : ¬ (B = 0) := Nat.pos_iff_ne_zero.mp hB
      have hrun : runBatches f B (ord :: orders) (c :: cs) =
          (batchResults f ((c :: cs).take B) ord).map Prod.snd ++
            runBatches f B orders ((c :: cs).drop B) :=
        runBatches_cons f hBne (ord :: orders) c cs
      have hbatch := batchResults_spec f ((c :: cs).take B) ord hperm
      have hbl : ((c :: cs).take B).length = min B (c :: cs).length := by
        simp [List.length_take]
      have hlen1 : ((batchResults f ((c :: cs).take B) ord).map Prod.snd).length =
          min B (c :: cs).length := by
        rw [hbatch, List.length_map, List.length_range, hbl]
      obtain ⟨ihlen, ihget⟩ := ih
      constructor
      · rw [hrun, List.length_append, hlen1, ihlen, List.length_drop]
        have hpos : 0 < (c :: cs).length := by simp
        omega
      · intro k hk
        rw [hrun]
        by_cases hkb : k < min B (c :: cs).length
        · rw [List.getElem?_append_left (by rw [hlen1]; exact hkb)]
          rw [hbatch]
          have hkr : k < (List.range (((c :: cs).take B).length)).length := by
            rw [List.length_range, hbl]; exact hkb
          rw [List.getElem?_map]
          have : (List.range (((c :: cs).take B).length))[k]? = some k := by
            rw [List.getElem?_range (by rw [hbl]; exact hkb)]
          rw [this]
          have hkB : k < B := lt_of_lt_of_le hkb (Nat.min_le_left _ _)
          have htk : ((c :: cs).take B)[k]? = some ((c :: cs).get ⟨k, hk⟩) := by
            rw [List.getElem?_take, if_pos hkB]
            simp [List.getElem?_eq_getElem hk]
          simp only [Option.map_some']
          rw [htk]
          simp [Nat.mod_eq_of_lt hkB]
        · -- `k` lands in a later batch
          have hnB : B < (c :: cs).length := by
            rcases Nat.lt_or_ge B (c :: cs).length with h | h
            · exact h
            · exfalso; exact hkb (by omega)
          have hmin : min B (c :: cs).length = B := by omega
          rw [List.getElem?_append_right (by rw [hlen1, hmin]; omega), hlen1, hmin]
          have hkd : k - B < ((c :: cs).drop B).length := by
            rw [List.length_drop]; omega
          rw [ihget (k - B) hkd]
          have hget : ((c :: cs).drop B).get ⟨k - B, hkd⟩ = (c :: cs).get ⟨k, hk⟩ := by
            have hsum : B + (k - B) = k := by omega
            simp only [List.get_eq_getElem, List.getElem_drop]
            congr 1
          rw [hget]
          have hmod : (k - B) % B = k % B := by
            conv_rhs => rw [show k = B + (k - B) by omega]
            rw [Nat.add_mod_left]
          rw [hmod]

lemma process_chunks_parallel_ok (chunks : List α) (f : α → Nat → Except ε β)
    (orders : List (List Nat)) {W B : Int} (hW : 0 < W) (hB : 0 < B) :
    process_chunks_parallel chunks f orders (some W) (some B) =
      Except.ok (runBatches f B.toNat orders chunks) := by
  have h1 : resolveInt (some B) settingsBATCH_SIZE = B := by
    simp [resolveInt, hB.ne']
  have h2 : resolveInt (some W) settingsMAX_THREADS = W := by
    simp [resolveInt, hW.ne']
  simp only [process_chunks_parallel, h1, h2]
  rw [if_neg hB.ne', if_neg (by omega : ¬ B < 0),
    if_neg (fun h => absurd h.2 (by omega : ¬ W ≤ 0))]

/-- C1: with a positive worker count and batch size, for every chunk list,
every process function and every family of within-batch completion orders,
`process_chunks_parallel` succeeds with one output entry per input chunk, the
`k`-th entry being the (caught) result the process function produces for the
`k`-th chunk — submission order is preserved independently of completion
timing. -/
theorem process_chunks_parallel_ordered (chunks : List α) (f : α → Nat → Except ε β)
    (orders : List (List Nat)) (W B : Int) (hW : 0 < W) (hB : 0 < B)
    (hord : ValidOrders B.toNat chunks orders) :
    ∃ out, process_chunks_parallel chunks f orders (some W) (some B) = Except.ok out ∧
      out.length = chunks.length ∧
      ∀ k (hk : k < chunks.length),
        out[k]? = some ((f (chunks.get ⟨k, hk⟩) (k % B.toNat)).toOption) := by
  have hBt : 0 < B.toNat := by omega
  obtain ⟨hlen, hget⟩ := runBatches_spec f hBt chunks orders hord
  exact ⟨runBatches f B.toNat orders chunks,
    process_chunks_parallel_ok chunks f orders hW hB, hlen, hget⟩

/-- Concrete run of the C1 theorem: three chunks, batch size 2, the first
batch completing in reversed order. -/
theorem process_chunks_parallel_ordered_witness :
    ∃ out, process_chunks_parallel ["a", "b", "c"]
        (fun c i => (Except.ok (c ++ toString i) : Except Unit String))
        [[1, 0], [0]] (some 1) (some 2) = Except.ok out ∧
      out.length = (["a", "b", "c"] : List String).length ∧
      ∀ k (hk : k < (["a", "b", "c"] : List String).length),
        out[k]? = some (((fun c i => (Except.ok (c ++ toString i) : Except Unit String))
          ((["a", "b", "c"] : List String).get ⟨k, hk⟩) (k % (2 : Int).toNat)).toOption) :=
  process_chunks_parallel_ordered ["a", "b", "c"] _ [[1, 0], [0]] 1 2
    (by decide) (by decide)
    (ValidOrders.cons (by decide) (ValidOrders.cons (by decide) (ValidOrders.nil _)))

/-- C5: a chunk whose process function raises is recorded as `None` at its own
position; the call still succeeds, and every other chunk of that batch and of
all later batches is still processed normally. -/
theorem process_chunks_parallel_catches_errors (chunks : List α)
    (f : α → Nat → Except ε β) (orders : List (List Nat)) (W B : Int)
    (hW : 0 < W) (hB : 0 < B) (hord : ValidOrders B.toNat chunks orders)
    (k : Nat) (hk : k < chunks.length) (e : ε)
    (herr : f (chunks.get ⟨k, hk⟩) (k % B.toNat) = Except.error e) :
    ∃ out, process_chunks_parallel chunks f orders (some W) (some B) = Except.ok out ∧
      out.length = chunks.length ∧
      out[k]? = some none ∧
      ∀ j (hj : j < chunks.length), j ≠ k →
        out[j]? = some ((f (chunks.get ⟨j, hj⟩) (j % B.toNat)).toOption) := by
  have hBt : 0 < B.toNat := by omega
  obtain ⟨hlen, hget⟩ := runBatches_spec f hBt chunks orders hord
  refine ⟨runBatches f B.toNat orders chunks,
    process_chunks_parallel_ok chunks f orders hW hB, hlen, ?_, fun j hj _ => hget j hj⟩
  rw [hget k hk, herr]
  rfl

/-- Concrete run of the C5 theorem: the middle chunk raises, both neighbours
are still processed and the failure is recorded as `None`. -/
theorem process_chunks_parallel_catches_errors_witness :
    ∃ out, process_chunks_parallel ["a", "b", "c"]
        (fun c i => if c = "b" then Except.error () else Except.ok (c ++ toString i))
        [[1, 0], [0]] (some 1) (some 2) = Except.ok out ∧
      out.length = (["a", "b", "c"] : List String).length ∧
      out[1]? = some none ∧
      ∀ j (hj : j < (["a", "b", "c"] : List String).length), j ≠ 1 →
        out[j]? = some (((fun c i => if c = "b" then Except.error () else
          Except.ok (c ++ toString i))
          ((["a", "b", "c"] : List String).get ⟨j, hj⟩) (j % (2 : Int).toNat)).toOption) :=
  process_chunks_parallel_catches_errors ["a", "b", "c"] _ [[1, 0], [0]] 1 2
    (by decide) (by decide)
    (ValidOrders.cons (by decide) (ValidOrders.cons (by decide) (ValidOrders.nil _)))
    1 (by decide) () (by rfl)

/-! ### Segmenter lemmas -/

/-- A `for`-loop that conditionally appends is a filter-and-map. -/
lemma foldl_skip_append {α β : Type*} (p : α → Prop) [DecidablePred p] (w : α → β) :
    ∀ (l : List α) (acc : List β),
      l.foldl (fun acc i => if p i then acc else acc ++ [w i]) acc =
        acc ++ (l.filter (fun i => !(decide (p i)))).map w := by
  intro l
  induction l with
  | nil => intro acc; simp
  | cons a l ih =>
    intro acc
    by_cases h : p a
    · simp [List.foldl_cons, if_pos h, h, ih]
    · simp [List.foldl_cons, if_neg h, h, ih (acc ++ [w a])]

/-- If the last element of a list passes a filter, it is also the last
element of the filtered list. -/
lemma getLast?_filter_of_pos {α : Type*} (p : α → Bool) (l : List α) (x : α)
    (hx : l.getLast? = some x) (hpx : p x = true) :
    (l.filter p).getLast? = some x := by
  have hx' : l.reverse.head? = some x := by rw [List.head?_reverse]; exact hx
  have hgoal : (l.filter p).reverse.head? = some x := by
    rw [← List.filter_reverse p l]
    cases hrev : l.reverse with
    | nil => rw [hrev] at hx'; exact absurd hx' (by simp)
    | cons a t =>
      rw [hrev] at hx'
      have ha : a = x := by simpa using hx'
      subst ha
      rw [List.filter_cons_of_pos hpx]
      rfl
  rw [← List.head?_reverse]
  exact hgoal

/-- The last window start produced by a ceiling-division `range` reaches the
end of the word list within one step. -/
lemma ceil_last_start_reaches (n s : Nat) (hn : 1 ≤ n) (hs : 0 < s) :
    n ≤ ((n + s - 1) / s - 1) * s + s := by
  have hqeq : (n + s - 1) / s = (n - 1) / s + 1 := by
    have h : n + s - 1 = (n - 1) + s := by omega
    rw [h, Nat.add_div_right _ hs]
  rw [hqeq, Nat.add_sub_cancel]
  have h1 := Nat.div_add_mod (n - 1) s
  have h2 := Nat.mod_lt (n - 1) hs
  rw [Nat.mul_comm s ((n - 1) / s)] at h1
  omega

/-- Evaluation of `chunk_text` at nonzero explicit arguments: the `or`
defaults do not fire. -/
lemma chunk_text_eq_core (text : String) {cs ov ms : Int}
    (hcs : cs ≠ 0) (hov : ov ≠ 0) (hms : ms ≠ 0) :
    chunk_text text (some cs) (some ov) (some ms) = chunk_text_core text cs ov ms := by
  simp [chunk_text, resolveInt, hcs, hov, hms]

/-- C6 (amended): in word mode, on a text longer than `chunk_size`, with
positive sizes and `overlap < chunk_size`, the produced list consists of
exactly those windows that have at least `min_chunk_size` words **or reach
the tail of the text** (`start + chunk_size ≥ word count`) — not only the
final one; and the final window is indeed always kept, as the last chunk. -/
theorem chunk_text_min_size_filter (text : String) (cs ov ms : Int)
    (hcs : 0 < cs) (hov : 0 < ov) (hstep : ov < cs) (hms : ms ≠ 0)
    (hlong : cs < ((pySplit text).length : Int)) :
    chunk_text text (some cs) (some ov) (some ms) =
      Except.ok (((pyStarts (pySplit text).length (cs - ov).toNat).filter
        (fun i => decide (ms ≤ ((pySlice (pySplit text) i ((i : Int) + cs)).length : Int) ∨
          ((pySplit text).length : Int) ≤ (i : Int) + cs))).map
        (fun i => joinWords (pySlice (pySplit text) i ((i : Int) + cs)))) ∧
      (pyStarts (pySplit text).length (cs - ov).toNat).getLast? ≠ none ∧
      (((pyStarts (pySplit text).length (cs - ov).toNat).filter
        (fun i => decide (ms ≤ ((pySlice (pySplit text) i ((i : Int) + cs)).length : Int) ∨
          ((pySplit text).length : Int) ≤ (i : Int) + cs))).map
        (fun i => joinWords (pySlice (pySplit text) i ((i : Int) + cs)))).getLast? =
        ((pyStarts (pySplit text).length (cs - ov).toNat).getLast?).map
          (fun i => joinWords (pySlice (pySplit text) i ((i : Int) + cs))) := by
  have hrw := chunk_text_eq_core text hcs.ne' hov.ne' hms
  have hspos : 0 < (cs - ov).toNat := by omega
  have hsint : ((cs - ov).toNat : Int) = cs - ov := Int.toNat_of_nonneg (by omega)
  have hcore : chunk_text_core text cs ov ms =
      Except.ok (((pyStarts (pySplit text).length (cs - ov).toNat).filter
        (fun i => !(decide (((pySlice (pySplit text) i ((i : Int) + cs)).length : Int) < ms ∧
          (i : Int) + cs < ((pySplit text).length : Int))))).map
        (fun i => joinWords (pySlice (pySplit text) i ((i : Int) + cs)))) := by
    unfold chunk_text_core
    rw [if_neg (by omega : ¬ ((pySplit text).length : Int) ≤ cs)]
    rw [if_neg (by omega : ¬ cs - ov = 0), if_neg (by omega : ¬ cs - ov < 0)]
    rw [foldl_skip_append
      (fun i => ((pySlice (pySplit text) i ((i : Int) + cs)).length : Int) < ms ∧
        (i : Int) + cs < ((pySplit text).length : Int))
      (fun i => joinWords (pySlice (pySplit text) i ((i : Int) + cs)))]
    rfl
  have hfilter : (pyStarts (pySplit text).length (cs - ov).toNat).filter
      (fun i => !(decide (((pySlice (pySplit text) i ((i : Int) + cs)).length : Int) < ms ∧
        (i : Int) + cs < ((pySplit text).length : Int)))) =
      (pyStarts (pySplit text).length (cs - ov).toNat).filter
        (fun i => decide (ms ≤ ((pySlice (pySplit text) i ((i : Int) + cs)).length : Int) ∨
          ((pySplit text).length : Int) ≤ (i : Int) + cs)) := by
    apply List.filter_congr
    intro i _
    rw [← decide_not]
    apply decide_eq_decide.mpr
    omega
  have hq1 : 1 ≤ ((pySplit text).length + (cs - ov).toNat - 1) / (cs - ov).toNat :=
    Nat.div_pos (by omega) hspos
  have hL : (pyStarts (pySplit text).length (cs - ov).toNat).getLast? =
      some ((((pySplit text).length + (cs - ov).toNat - 1) / (cs - ov).toNat - 1) *
        (cs - ov).toNat) := by
    unfold pyStarts
    rw [List.getLast?_map]
    rw [List.getLast?_eq_getElem?, List.length_range,
      List.getElem?_range (by omega)]
    rfl
  have hkeepL : (decide (ms ≤ ((pySlice (pySplit text)
      ((((pySplit text).length + (cs - ov).toNat - 1) / (cs - ov).toNat - 1) *
        (cs - ov).toNat)
      ((((((pySplit text).length + (cs - ov).toNat - 1) / (cs - ov).toNat - 1) *
        (cs - ov).toNat : Nat) : Int) + cs)).length : Int) ∨
      ((pySplit text).length : Int) ≤
        ((((((pySplit text).length + (cs - ov).toNat - 1) / (cs - ov).toNat - 1) *
          (cs - ov).toNat : Nat) : Int)) + cs)) = true := by
    apply decide_eq_true
    refine Or.inr ?_
    have hn1 : 1 ≤ (pySplit text).length := by omega
    have h3 := ceil_last_start_reaches (pySplit text).length (cs - ov).toNat hn1 hspos
    have h5 : (((pySplit text).length : Nat) : Int) ≤
        (((((pySplit text).length + (cs - ov).toNat - 1) / (cs - ov).toNat - 1) *
          (cs - ov).toNat : Nat) : Int) + (((cs - ov).toNat : Nat) : Int) := by
      exact_mod_cast h3
    omega
  refine ⟨by rw [hrw, hcore, hfilter], ?_, ?_⟩
  · rw [hL]
    intro hc
    exact Option.noConfusion hc
  · rw [List.getLast?_map, hL,
      getLast?_filter_of_pos _ (pyStarts (pySplit text).length (cs - ov).toNat) _ hL hkeepL]

/-- C6 counterexample: with 10 words, `chunk_size = 8`, `overlap = 7`,
`min_chunk_size = 8`, the window starting at word 3 has only 7 words and is
not the final window (the final chunk is `"j"`), yet it is kept: a window
shorter than `minSize` is *not* excluded whenever it reaches the tail. -/
theorem chunk_text_keeps_short_nonfinal_window :
    chunk_text "a b c d e f g h i j" (some 8) (some 7) (some 8) =
      Except.ok ["a b c d e f g h", "b c d e f g h i", "c d e f g h i j",
        "d e f g h i j", "e f g h i j", "f g h i j", "g h i j", "h i j", "i j", "j"] ∧
    ((pySplit "d e f g h i j").length : Int) < 8 ∧
    "d e f g h i j" ≠ "j" :=
  ⟨rfl, by decide, by decide⟩

/-- Concrete run of the C6 theorem on the counterexample configuration. -/
theorem chunk_text_min_size_filter_witness :
    (8 : Int) < ((pySplit "a b c d e f g h i j").length : Int) ∧
    chunk_text "a b c d e f g h i j" (some 8) (some 7) (some 8) =
      Except.ok ["a b c d e f g h", "b c d e f g h i", "c d e f g h i j",
        "d e f g h i j", "e f g h i j", "f g h i j", "g h i j", "h i j", "i j", "j"] :=
  ⟨by decide, by
    have h := chunk_text_min_size_filter "a b c d e f g h i j" 8 7 8
      (by decide) (by decide) (by decide) (by decide) (by decide)
    rw [h.1]
    rfl⟩

/-- C7 (amended): a zero or negative target size is *not* fatal.  A zero
`chunk_size` is falsy for Python `or` and is silently replaced by the
configured default, while a negative `chunk_size` (with the default,
nonnegative overlap) makes the window `range` empty, so `chunk_text`
silently returns an empty segment list — no error is raised. -/
theorem chunk_text_nonpositive_size_not_fatal (text : String) (cs : Int)
    (ov ms : Option Int) (hneg : cs < 0) :
    chunk_text text (some cs) none ms = Except.ok [] ∧
    chunk_text text (some 0) ov ms = chunk_text text none ov ms := by
  constructor
  · have h1 : resolveInt (some cs) settingsCHUNK_SIZE = cs := by
      show (if cs = 0 then settingsCHUNK_SIZE else cs) = cs
      rw [if_neg (by omega : ¬ cs = 0)]
    unfold chunk_text
    rw [h1]
    show chunk_text_core text cs (resolveInt none settingsCHUNK_OVERLAP) _ = Except.ok []
    unfold chunk_text_core
    rw [if_neg (by omega : ¬ ((pySplit text).length : Int) ≤ cs)]
    rw [if_neg (by simp only [resolveInt, settingsCHUNK_OVERLAP]; omega),
      if_pos (by simp only [resolveInt, settingsCHUNK_OVERLAP]; omega)]
  · rfl

/-- C7 counterexample: called with a negative target size, `chunk_text`
silently returns the empty list, and with a zero target size it silently
chunks with the default size — neither call raises. -/
theorem chunk_text_bad_size_no_error :
    chunk_text "a b" (some (-5)) none none = Except.ok [] ∧
    chunk_text "a b" (some 0) none none = Except.ok ["a b"] :=
  ⟨rfl, rfl⟩

/-- Concrete run of the C7 theorem. -/
theorem chunk_text_nonpositive_size_not_fatal_witness :
    chunk_text "x y" (some (-3)) none none = Except.ok [] ∧
    chunk_text "x y" (some 0) none none = chunk_text "x y" none none none :=
  chunk_text_nonpositive_size_not_fatal "x y" (-3) none none (by decide)

/-- C10 (amended): on a text with more than `chunk_size` words and *nonzero*
explicit parameters, `chunk_overlap = chunk_size` raises `ValueError` (zero
step in the window-advance `range`) and `chunk_overlap > chunk_size` returns
the empty list.  (Zero arguments are falsy and silently replaced by the
configured defaults, so the zero/zero call instead chunks normally.) -/
theorem chunk_text_overlap_ge_size (text : String) (cs ov : Int) (ms : Option Int)
    (hcs : cs ≠ 0) (hov : ov ≠ 0) (hlong : cs < ((pySplit text).length : Int)) :
    (ov = cs → chunk_text text (some cs) (some ov) ms = Except.error rangeZeroStepError) ∧
    (cs < ov → chunk_text text (some cs) (some ov) ms = Except.ok []) := by
  have h1 : resolveInt (some cs) settingsCHUNK_SIZE = cs := by
    simp [resolveInt, hcs]
  have h2 : resolveInt (some ov) settingsCHUNK_OVERLAP = ov := by
    simp [resolveInt, hov]
  constructor
  · intro heq
    unfold chunk_text
    rw [h1, h2]
    unfold chunk_text_core
    rw [if_neg (by omega : ¬ ((pySplit text).length : Int) ≤ cs),
      if_pos (by omega : cs - ov = 0)]
  · intro hlt
    unfold chunk_text
    rw [h1, h2]
    unfold chunk_text_core
    rw [if_neg (by omega : ¬ ((pySplit text).length : Int) ≤ cs),
      if_neg (by omega : ¬ cs - ov = 0), if_pos (by omega : cs - ov < 0)]

/-- C10 counterexample: with `chunk_size = chunk_overlap = 0` (equal values)
and a text of more than `0` words, no `ValueError` is raised — both zero
arguments are replaced by the defaults and the text is chunked normally. -/
theorem chunk_text_zero_params_defaulted :
    chunk_text "a" (some 0) (some 0) (some 1) = Except.ok ["a"] :=
  rfl

/-- Concrete runs of the C10 theorem: equal nonzero parameters raise, larger
overlap yields the empty list. -/
theorem chunk_text_overlap_ge_size_witness :
    chunk_text "a b c" (some 2) (some 2) none = Except.error rangeZeroStepError ∧
    chunk_text "a b c" (some 2) (some 3) none = Except.ok [] :=
  ⟨(chunk_text_overlap_ge_size "a b c" 2 2 none (by decide) (by decide) (by decide)).1 rfl,
   (chunk_text_overlap_ge_size "a b c" 2 3 none (by decide) (by decide) (by decide)).2
     (by decide)⟩

/-! ### Python values (`result_merger.py` works on parsed JSON data)

A `JVal` models the Python values flowing through the merger: strings,
lists, dicts, and any other Python value abstracted by its `repr` text and
its truthiness. -/

inductive JVal where
  | str (s : String)
  | arr (xs : List JVal)
  | obj (kvs : List (String × JVal))
  | other (rep : String) (truthy : Bool)

mutual

def JVal.beq : JVal → JVal → Bool
  | .str a, .str b => a == b
  | .arr xs, .arr ys => JVal.beqList xs ys
  | .obj kvs, .obj kvs2 => JVal.beqObj kvs kvs2
  | .other r t, .other r2 t2 => r == r2 && t == t2
  | _, _ => false

def JVal.beqList : List JVal → List JVal → Bool
  | [], [] => true
  | x :: xs, y :: ys => JVal.beq x y && JVal.beqList xs ys
  | _, _ => false

def JVal.beqObj : List (String × JVal) → List (String × JVal) → Bool
  | [], [] => true
  | (k, v) :: xs, (k2, v2) :: ys => k == k2 && JVal.beq v v2 && JVal.beqObj xs ys
  | _, _ => false

end

mutual

theorem JVal.beq_iff : ∀ (a b : JVal), (JVal.beq a b = true) ↔ a = b
  | .str a, .str b => by simp [JVal.beq]
  | .str a, .arr ys => by simp [JVal.beq]
  | .str a, .obj k2 => by simp [JVal.beq]
  | .str a, .other r2 t2 => by simp [JVal.beq]
  | .arr xs, .str b => by simp [JVal.beq]
  | .arr xs, .arr ys => by
    simp [JVal.beq, JVal.beqList_iff xs ys]
  | .arr xs, .obj k2 => by simp [JVal.beq]
  | .arr xs, .other r2 t2 => by simp [JVal.beq]
  | .obj k, .str b => by simp [JVal.beq]
  | .obj k, .arr ys => by simp [JVal.beq]
  | .obj k, .obj k2 => by
    simp [JVal.beq, JVal.beqObj_iff k k2]
  | .obj k, .other r2 t2 => by simp [JVal.beq]
  | .other r t, .str b => by simp [JVal.beq]
  | .other r t, .arr ys => by simp [JVal.beq]
  | .other r t, .obj k2 => by simp [JVal.beq]
  | .other r t, .other r2 t2 => by simp [JVal.beq]

theorem JVal.beqList_iff : ∀ (xs ys : List JVal), (JVal.beqList xs ys = true) ↔ xs = ys
  | [], [] => by simp [JVal.beqList]
  | [], y :: ys => by simp [JVal.beqList]
  | x :: xs, [] => by simp [JVal.beqList]
  | x :: xs, y :: ys => by
    simp [JVal.beqList, JVal.beq_iff x y, JVal.beqList_iff xs ys]

theorem JVal.beqObj_iff : ∀ (xs ys : List (String × JVal)),
    (JVal.beqObj xs ys = true) ↔ xs = ys
  | [], [] => by simp [JVal.beqObj]
  | [], y :: ys => by simp [JVal.beqObj]
  | x :: xs, [] => by simp [JVal.beqObj]
  | (k, v) :: xs, (k2, v2) :: ys => by
    simp [JVal.beqObj, JVal.beq_iff v v2, JVal.beqObj_iff xs ys, Prod.ext_iff,
      and_assoc]

end

instance : BEq JVal := ⟨JVal.beq⟩

instance : DecidableEq JVal :=
  fun a b => decidable_of_iff (JVal.beq a b = true) (JVal.beq_iff a b)

/-- Python truthiness of a value. -/
def truthy : JVal → Bool
  | .str s => !s.data.isEmpty
  | .arr xs => !xs.isEmpty
  | .obj kvs => !kvs.isEmpty
  | .other _ t => t

/-- `isinstance(v, list)`. -/
def isArr : JVal → Bool
  | .arr _ => true
  | _ => false

/-- `isinstance(v, str)`. -/
def isStr : JVal → Bool
  | .str _ => true
  | _ => false

/-- `isinstance(v, dict)`. -/
def isObj : JVal → Bool
  | .obj _ => true
  | _ => false

/-- Python `repr` of a value (nested values inside containers print with
their `repr`; simplification: strings always use single quotes). -/
def pyRepr : JVal → String
  | .str s => "'" ++ s ++ "'"
  | .arr xs => "[" ++ String.intercalate ", " (xs.attach.map (fun x => pyRepr x.1)) ++ "]"
  | .obj kvs => "\x7b" ++ String.intercalate ", "
      (kvs.attach.map (fun kv => "'" ++ kv.1.1 ++ "': " ++ pyRepr kv.1.2)) ++ "\x7d"
  | .other r _ => r
decreasing_by
  all_goals simp_wf
  · have := List.sizeOf_lt_of_mem x.2
    omega
  · obtain ⟨⟨k, v⟩, hkv⟩ := kv
    have := List.sizeOf_lt_of_mem hkv
    simp at this ⊢
    omega

/-- Python `str(v)`. -/
def pyStr : JVal → String
  | .str s => s
  | v => pyRepr v

/-- Python dict lookup on an association list (keys are unique in the dicts
this pipeline builds, so first match is the dict entry). -/
def alookup : List (String × JVal) → String → Option JVal
  | [], _ => none
  | (k, v) :: rest, key => if k = key then some v else alookup rest key

/-- Python `d[key] = v` on an association list: replace in place, else
append (dict insertion order). -/
def aset : List (String × JVal) → String → JVal → List (String × JVal)
  | [], key, v => [(key, v)]
  | (k, w) :: rest, key, v =>
    if k = key then (k, v) :: rest else (k, w) :: aset rest key v

/-- Python string lowercasing (ASCII, as used by this code base). -/
def strLower (s : String) : String := ⟨s.data.map Char.toLower⟩

/-- Python `c in s` for a single character. -/
def charIn (c : Char) (s : String) : Bool := s.data.contains c

/-- Loop of `pySplitOn`. -/
def pySplitOnGo (sep : Char) : List Char → List Char → List String
  | cur, [] => [⟨cur.reverse⟩]
  | cur, d :: ds =>
    if d = sep then ⟨cur.reverse⟩ :: pySplitOnGo sep [] ds
    else pySplitOnGo sep (d :: cur) ds

/-- Python `s.split(sep)` for a single-character separator (keeps empty
pieces, unlike bare `split()`). -/
def pySplitOn (s : String) (sep : Char) : List String := pySplitOnGo sep [] s.data

/-- Fuel-driven loop of `pyReplace` (fuel bounds the remaining length, so the
recursion is structural and computable by the kernel). -/
def pyReplaceGo (pat rep : List Char) : Nat → List Char → List Char
  | _, [] => []
  | 0, l => l
  | fuel + 1, c :: cs =>
    if pat ≠ [] ∧ charsPrefixOf pat (c :: cs) then
      rep ++ pyReplaceGo pat rep fuel (List.drop (pat.length - 1) cs)
    else
      c :: pyReplaceGo pat rep fuel cs

/-- Python `s.replace(pat, rep)`: left-to-right, non-overlapping. -/
def pyReplace (s pat rep : String) : String :=
  ⟨pyReplaceGo pat.data rep.data s.data.length s.data⟩

/-! ### Reconciler (`src/merging/result_merger.py`)

Settings default (from `src/config/settings.py`): `UNKNOWN_VALUE = "unknown"`.
The dedup backend (`dudoxx_client.extract_fields` inside
`deduplicate_with_llm`) is abstracted by an oracle mapping the call data —
the field name and the item list the prompt is built from — to the parsed
response, or to a raised exception (`Except.error`). -/

def settingsUNKNOWN_VALUE : String := "unknown"

/-- The static list-keyword lexicon of `_is_list_field`. -/
def list_indicators : List String :=
  ["history", "histories", "list", "lists", "items", "entries",
   "events", "experiences", "education", "work", "jobs", "skills",
   "qualifications", "certifications", "publications", "awards",
   "achievements", "projects", "responsibilities", "duties",
   "medications", "conditions", "symptoms", "diagnoses", "treatments",
   "procedures", "allergies", "immunizations", "vaccinations",
   "addresses", "phones", "emails", "contacts", "references",
   "hobbies", "interests", "languages", "memberships", "affiliations"]

/-- `_is_list_field(field)`: any lexicon keyword occurs in the lowered name. -/
def _is_list_field (field : String) : Bool :=
  list_indicators.any (fun indicator => strIn indicator (strLower field))

/-- `_normalize_field(value, field)`: field-type-aware normalization used to
compare conflicting scalars. -/
def _normalize_field (value : JVal) (field : String) : String :=
  let value_str := pyStr value
  if strIn "phone" (strLower field) then
    ⟨value_str.data.filter Char.isDigit⟩
  else if strIn "email" (strLower field) then
    strLower value_str
  else if strIn "address" (strLower field) then
    let normalized := strLower value_str
    let normalized := joinWords (pySplit normalized)
    let normalized := pyReplace (pyReplace normalized "," " ") "." " "
    joinWords (pySplit normalized)
  else if strIn "name" (strLower field) then
    joinWords (pySplit (strLower value_str))
  else
    joinWords (pySplit (strLower value_str))

/-- Head-character capitalization test for `_format_quality_score` names
(only applied to nonempty words). -/
def headIsUpper (w : String) : Bool :=
  match w.data with
  | [] => false
  | c :: _ => c.isUpper

/-- `_format_quality_score(value, field)`. -/
def _format_quality_score (value : JVal) (field : String) : Nat :=
  let value_str := pyStr value
  let base : Nat :=
    if strIn "phone" (strLower field) then
      (if charIn '(' value_str ∧ charIn ')' value_str then 1 else 0) +
        (if charIn '-' value_str then 1 else 0)
    else if strIn "email" (strLower field) then
      if charIn '@' value_str ∧ charIn '.' ((pySplitOn value_str '@').getLastD "") then 2
      else 0
    else if strIn "address" (strLower field) then
      (if charIn ',' value_str then 1 else 0) +
        (if value_str.data.any Char.isUpper then 1 else 0)
    else if strIn "name" (strLower field) then
      if ((pySplit value_str).filter (fun w => w ≠ "")).all headIsUpper then 2 else 0
    else 0
  base + (if value_str.data.any Char.isUpper then 1 else 0) +
    (if charIn ',' value_str ∨ charIn '.' value_str ∨ charIn ';' value_str ∨
        charIn ':' value_str then 1 else 0)

/-- `list_fields[field] = True` on the registry, keeping first-marking
order (Python dict key insertion). -/
def addListField (lf : List String) (field : String) : List String :=
  if field ∈ lf then lf else lf ++ [field]

/-- Coerce to a Python list: `v if isinstance(v, list) else [v]`. -/
def toPyList : JVal → List JVal
  | .arr xs => xs
  | v => [v]

/-- The merge state: the `merged` dict and the `list_fields` registry. -/
structure MergeState where
  merged : List (String × JVal)
  list_fields : List String

/-- Body of the inner `for field in fields` loop of `merge_results` for one
field of one chunk result. -/
def processField (u : String) (result : List (String × JVal)) (st : MergeState)
    (field : String) : MergeState :=
  match alookup result field with
  | none => st
  | some value =>
    if value = JVal.str u then st
    else
      match alookup st.merged field with
      | none => st
      | some cur =>
        if cur = JVal.str u then
          { st with merged := aset st.merged field value }
        else if cur = value then st
        else if isArr value ∨ isArr cur then
          { merged := aset st.merged field (.arr (toPyList cur ++ toPyList value)),
            list_fields := addListField st.list_fields field }
        else if field ∈ st.list_fields ∨ _is_list_field field then
          let curL := toPyList cur
          let newL := if curL.contains value then curL else curL ++ [value]
          { merged := aset st.merged field (.arr newL),
            list_fields := addListField st.list_fields field }
        else if (pyStr value).length > (pyStr cur).length then
          { st with merged := aset st.merged field value }
        else if strIn (pyStr value) (pyStr cur) then st
        else if strIn (pyStr cur) (pyStr value) then
          { st with merged := aset st.merged field value }
        else if _normalize_field value field = _normalize_field cur field then
          if _format_quality_score value field > _format_quality_score cur field then
            { st with merged := aset st.merged field value }
          else st
        else st

/-- Body of the outer `for result in chunk_results` loop: falsy results
(`None` or an empty dict) and results carrying an `error` key are skipped. -/
def processResult (u : String) (fields : List String) (st : MergeState)
    (result : Option (List (String × JVal))) : MergeState :=
  match result with
  | none => st
  | some r =>
    if r.isEmpty then st
    else if (alookup r "error").isSome then st
    else fields.foldl (processField u r) st

/-- First-seen-order exact deduplication; this is both the pre-check in
`deduplicate_with_llm` and its fallback
(`[x for x in items if not (x in seen or seen.add(x))]`). -/
def exactDedup (items : List JVal) : List JVal :=
  items.foldl (fun acc x => if acc.contains x then acc else acc ++ [x]) []

/-- The `condition_fields` probed by the medical-history reconstruction. -/
def condition_fields : List String :=
  ["medical_condition", "condition", "diagnosis", "procedure", "treatment", "event"]

/-- The `date_fields` probed by the medical-history reconstruction. -/
def date_field_names : List String :=
  ["date", "date_diagnosed", "date_started", "date_performed", "year",
   "date_of_diagnosis", "start_date", "date_of_procedure", "when",
   "date_procedure", "date_surgery", "date_event", "date_treatment",
   "diagnosed_on", "performed_on", "started_on", "occurred_on"]

/-- Python `key in container`; raises `TypeError` on non-iterable values. -/
def jIn (needle : String) (container : JVal) : Except Unit Bool :=
  match container with
  | .obj kvs => Except.ok (alookup kvs needle).isSome
  | .arr xs => Except.ok (xs.contains (.str needle))
  | .str s => Except.ok (strIn needle s)
  | .other _ _ => Except.error ()

/-- Python `container[key]` for a string key; `TypeError` on lists/strings,
`KeyError` on a missing dict key. -/
def jGetKey (container : JVal) (key : String) : Except Unit JVal :=
  match container with
  | .obj kvs =>
    match alookup kvs key with
    | some v => Except.ok v
    | none => Except.error ()
  | _ => Except.error ()

/-- The `for cf in fields: if cf in item and item[cf]: take it; break` loop
(used for conditions, and for dates in the structured branch). -/
def findTruthyField (item : JVal) : List String → Except Unit JVal
  | [] => Except.ok (.str "")
  | cf :: rest => do
    let b ← jIn cf item
    if b then
      let v ← jGetKey item cf
      if truthy v then pure v else findTruthyField item rest
    else findTruthyField item rest

/-- The date loop of the *nested* branch, which additionally requires
`item[df].lower() != "unknown"` inside the loop (`.lower()` raises
`AttributeError` on a non-string). -/
def findDateNested (item : JVal) : List String → Except Unit JVal
  | [] => Except.ok (.str "")
  | df :: rest => do
    let b ← jIn df item
    if b then
      let v ← jGetKey item df
      if truthy v then
        match v with
        | .str s =>
          if strLower s ≠ "unknown" then pure v else findDateNested item rest
        | _ => Except.error ()
      else findDateNested item rest
    else findDateNested item rest

/-- Item conversion of the nested branch (`response[0]['deduplicated_items']`).
For `medical_history`, reconstruct `"condition (date)"`; otherwise `str(item)`. -/
def convertNestedItem (field_name : String) (item : JVal) : Except Unit JVal :=
  if field_name = "medical_history" then do
    let condition ← findTruthyField item condition_fields
    let date ← findDateNested item date_field_names
    if truthy condition ∧ truthy date then
      pure (.str (pyStr condition ++ " (" ++ pyStr date ++ ")"))
    else
      pure condition
  else
    pure (.str (pyStr item))

/-- Item conversion of the structured (list-of-dicts) branch; here the
`unknown` check happens after the loops, on the chosen date. -/
def convertStructuredItem (field_name : String) (item : JVal) : Except Unit JVal :=
  if field_name = "medical_history" then do
    let condition ← findTruthyField item condition_fields
    let date ← findTruthyField item date_field_names
    if truthy condition then
      if truthy date then
        match date with
        | .str ds =>
          if strLower ds ≠ "unknown" then
            pure (.str (pyStr condition ++ " (" ++ pyStr date ++ ")"))
          else
            pure condition
        | _ => Except.error ()
      else pure condition
    else pure condition
  else
    pure (.str (pyStr item))

/-- The `else` branch of `deduplicate_with_llm` (the response did not pass
`"deduplicated_items" in response`): nested, structured, and plain-strings
shapes, then the fallback.  A conversion exception lands in the outer
`except`, i.e. the fallback. -/
def dedupElseBranch (items : List JVal) (field_name : String) (response : JVal) :
    List JVal :=
  match response with
  | .arr xs =>
    match xs with
    | JVal.obj kvs0 :: _ =>
      if (alookup kvs0 "deduplicated_items").isSome then
        match alookup kvs0 "deduplicated_items" with
        | some (JVal.arr nested) =>
          match nested.mapM (convertNestedItem field_name) with
          | Except.ok out => out
          | Except.error _ => exactDedup items
        | _ =>
          -- `nested_items` is not a list: fall through; the head is a dict,
          -- so the all-strings check below cannot fire either.
          exactDedup items
      else if xs.all isObj then
        match xs.mapM (convertStructuredItem field_name) with
        | Except.ok out => out
        | Except.error _ => exactDedup items
      else if xs.all isStr then xs
      else exactDedup items
    | _ =>
      if xs.all isObj then
        match xs.mapM (convertStructuredItem field_name) with
        | Except.ok out => out
        | Except.error _ => exactDedup items
      else if xs.all isStr then xs
      else exactDedup items
  | _ => exactDedup items

/-- `deduplicate_with_llm(items, field_name)` with the backend response
passed explicitly (`Except.error` = the invocation raised). -/
def deduplicate_with_llm (items : List JVal) (field_name : String)
    (resp : Except Unit JVal) : List JVal :=
  if items.isEmpty then []
  else if items.length = 1 then items
  else
    let unique_items := exactDedup items
    if unique_items.length = 1 then unique_items
    else
      match resp with
      | Except.error _ => exactDedup items
      | Except.ok response =>
        match response with
        | .obj kvs =>
          if (alookup kvs "deduplicated_items").isSome then
            match alookup kvs "deduplicated_items" with
            | some (JVal.arr deduplicated) => deduplicated
            | _ => exactDedup items
          else dedupElseBranch items field_name response
        | .arr xs =>
          if xs.contains (.str "deduplicated_items") then
            -- `response["deduplicated_items"]` on a list: `TypeError`,
            -- caught by the outer `except` → fallback.
            exactDedup items
          else dedupElseBranch items field_name response
        | .str s =>
          if strIn "deduplicated_items" s then
            -- string indexed by string: `TypeError` → fallback
            exactDedup items
          else dedupElseBranch items field_name response
        | .other _ _ =>
          -- `in` on a non-container: `TypeError` → fallback
          exactDedup items

/-- `merge_results(chunk_results, fields, unknown_value)` with the sentinel
already resolved; `oracle` supplies the dedup backend's response for each
post-processing call. -/
def merge_results_core (chunk_results : List (Option (List (String × JVal))))
    (fields : List String) (u : String)
    (oracle : String → List JVal → Except Unit JVal) : List (String × JVal) :=
  let init : MergeState :=
    { merged := fields.foldl (fun m f => aset m f (.str u)) [], list_fields := [] }
  let st := chunk_results.foldl (processResult u fields) init
  st.list_fields.foldl
    (fun merged field =>
      match alookup merged field with
      | some (JVal.arr xs) =>
        aset merged field (.arr (deduplicate_with_llm xs field (oracle field xs)))
      | _ => merged)
    st.merged

/-- `merge_results` with the Python `unknown_value or settings.UNKNOWN_VALUE`
default. -/
def merge_results (chunk_results : List (Option (List (String × JVal))))
    (fields : List String) (unknown_value : Option String)
    (oracle : String → List JVal → Except Unit JVal) : List (String × JVal) :=
  merge_results_core chunk_results fields
    (resolveStr unknown_value settingsUNKNOWN_VALUE) oracle

/-! ### Normalizer (`src/utils/validators.py`, `validate_fields`) -/

/-- `validate_fields(data, fields, unknown_value)` with the sentinel already
resolved: rebuild the dict over exactly the requested fields, defaulting
missing ones to the sentinel. -/
def validate_fields_core (data : List (String × JVal)) (fields : List String)
    (u : String) : List (String × JVal) :=
  fields.foldl
    (fun validated field =>
      match alookup data field with
      | some v => aset validated field v
      | none => aset validated field (.str u))
    []

/-- `validate_fields` with the Python `or` default for `unknown_value`. -/
def validate_fields (data : List (String × JVal)) (fields : List String)
    (unknown_value : Option String) : List (String × JVal) :=
  validate_fields_core data fields (resolveStr unknown_value settingsUNKNOWN_VALUE)

/-! ### Reconciler lemmas -/

/-- Falsy chunk results: `None`, or a result with empty `fields`
(`if not result: continue`). -/
def isFalsyResult (r : Option (List (String × JVal))) : Bool :=
  match r with
  | none => true
  | some m => m.isEmpty

lemma processResult_falsy (u : String) (fields : List String) (st : MergeState)
    (r : Option (List (String × JVal))) (h : isFalsyResult r = true) :
    processResult u fields st r = st := by
  match r with
  | none => rfl
  | some m =>
    simp only [isFalsyResult] at h
    simp [processResult, h]

/-- C4: merging a sequence of chunk results equals merging the subsequence
with the `None` / empty-fields results removed — a failed segment behaves
exactly as if it were never submitted. -/
theorem merge_results_ignores_empty (chunk_results : List (Option (List (String × JVal))))
    (fields : List String) (unknown_value : Option String)
    (oracle : String → List JVal → Except Unit JVal) :
    merge_results chunk_results fields unknown_value oracle =
      merge_results (chunk_results.filter (fun r => !(isFalsyResult r))) fields
        unknown_value oracle := by
  simp only [merge_results, merge_results_core]
  have hfold : ∀ (cs : List (Option (List (String × JVal)))) (st : MergeState),
      cs.foldl (processResult (resolveStr unknown_value settingsUNKNOWN_VALUE) fields) st =
        (cs.filter (fun r => !(isFalsyResult r))).foldl
          (processResult (resolveStr unknown_value settingsUNKNOWN_VALUE) fields) st := by
    intro cs
    induction cs with
    | nil => intro st; rfl
    | cons r rest ih =>
      intro st
      by_cases h : isFalsyResult r = true
      · rw [List.foldl_cons, processResult_falsy _ _ _ _ h, List.filter_cons_of_neg
          (by simp [h]), ih]
      · rw [List.foldl_cons, List.filter_cons_of_pos (by simp [h]), List.foldl_cons, ih]
  rw [hfold]

lemma alookup_aset (m : List (String × JVal)) (k : String) (v : JVal) (key : String) :
    alookup (aset m k v) key = if k = key then some v else alookup m key := by
  induction m with
  | nil => simp [aset, alookup]
  | cons p rest ih =>
    obtain ⟨k', w⟩ := p
    by_cases h1 : k' = k
    · subst h1
      by_cases h2 : k' = key
      · subst h2; simp [aset, alookup]
      · simp [aset, alookup, h2]
    · by_cases h2 : k' = key
      · subst h2
        have : ¬ (k = k') := fun hc => h1 hc.symm
        simp [aset, alookup, h1, this]
      · simp [aset, alookup, h1, h2, ih]

lemma mem_aset (m : List (String × JVal)) (k : String) (v : JVal)
    (kv : String × JVal) (h : kv ∈ aset m k v) : kv ∈ m ∨ kv.2 = v := by
  induction m with
  | nil =>
    simp [aset] at h
    subst h
    exact Or.inr rfl
  | cons p rest ih =>
    obtain ⟨k', w⟩ := p
    by_cases h1 : k' = k
    · subst h1
      simp [aset] at h
      rcases h with h | h
      · subst h; exact Or.inr rfl
      · exact Or.inl (List.mem_cons_of_mem _ h)
    · simp [aset, h1] at h
      rcases h with h | h
      · subst h; exact Or.inl (List.mem_cons_self _ _)
      · rcases ih h with h' | h'
        · exact Or.inl (List.mem_cons_of_mem _ h')
        · exact Or.inr h'

lemma alookup_mem (m : List (String × JVal)) (key : String) (v : JVal)
    (h : alookup m key = some v) : (key, v) ∈ m := by
  induction m with
  | nil => exact absurd h (by simp [alookup])
  | cons p rest ih =>
    obtain ⟨k', w⟩ := p
    by_cases h1 : k' = key
    · subst h1
      simp [alookup] at h
      subst h
      exact List.mem_cons_self _ _
    · simp [alookup, h1] at h
      exact List.mem_cons_of_mem _ (ih h)

/-- A value the data model allows for a field: a scalar string or a list. -/
def wellTyped (v : JVal) : Bool := isStr v || isArr v

/-- All values of an association list are strings or lists. -/
def TypedList (m : List (String × JVal)) : Prop :=
  ∀ kv ∈ m, wellTyped kv.2 = true

lemma TypedList_aset {m : List (String × JVal)} (h : TypedList m) {v : JVal}
    (hv : wellTyped v = true) (k : String) : TypedList (aset m k v) := by
  intro kv hkv
  rcases mem_aset m k v kv hkv with h' | h'
  · exact h kv h'
  · rw [h']; exact hv

lemma processField_typed (u : String) (result : List (String × JVal))
    (st : MergeState) (field : String) (hres : TypedList result)
    (hst : TypedList st.merged) :
    TypedList (processField u result st field).merged := by
  unfold processField
  cases hlv : alookup result field with
  | none => exact hst
  | some value =>
    have hv : wellTyped value = true := hres _ (alookup_mem _ _ _ hlv)
    dsimp only
    by_cases hvu : value = JVal.str u
    · rw [if_pos hvu]; exact hst
    · rw [if_neg hvu]
      cases hlc : alookup st.merged field with
      | none => exact hst
      | some cur =>
        repeat' split
        all_goals
          first
            | exact hst
            | exact TypedList_aset hst hv field
            | exact TypedList_aset hst (by rfl) field

lemma processResult_typed (u : String) (fields : List String) (st : MergeState)
    (r : Option (List (String × JVal)))
    (hr : ∀ m, r = some m → TypedList m) (hst : TypedList st.merged) :
    TypedList (processResult u fields st r).merged := by
  match r with
  | none => exact hst
  | some m =>
    have hm : TypedList m := hr m rfl
    have hfold : ∀ (fs : List String) (st' : MergeState), TypedList st'.merged →
        TypedList (fs.foldl (processField u m) st').merged := by
      intro fs
      induction fs with
      | nil => intro st' h; exact h
      | cons f rest ih =>
        intro st' h
        exact ih _ (processField_typed u m st' f hm h)
    unfold processResult
    dsimp only
    split
    · exact hst
    split
    · exact hst
    · exact hfold fields st hst

lemma merge_results_core_typed (chunk_results : List (Option (List (String × JVal))))
    (fields : List String) (u : String)
    (oracle : String → List JVal → Except Unit JVal)
    (h : ∀ r ∈ chunk_results, ∀ m, r = some m → TypedList m) :
    TypedList (merge_results_core chunk_results fields u oracle) := by
  unfold merge_results_core
  dsimp only
  have hinit : TypedList (fields.foldl (fun m f => aset m f (.str u)) []) := by
    have : ∀ (fs : List String) (acc : List (String × JVal)), TypedList acc →
        TypedList (fs.foldl (fun m f => aset m f (.str u)) acc) := by
      intro fs
      induction fs with
      | nil => intro acc hacc; exact hacc
      | cons f rest ih =>
        intro acc hacc
        exact ih _ (TypedList_aset hacc (by rfl) f)
    exact this fields [] (fun kv hkv => absurd hkv (List.not_mem_nil kv))
  have hmain : ∀ (cs : List (Option (List (String × JVal)))) (st : MergeState),
      (∀ r ∈ cs, ∀ m, r = some m → TypedList m) → TypedList st.merged →
      TypedList (cs.foldl (processResult u fields) st).merged := by
    intro cs
    induction cs with
    | nil => intro st _ hst; exact hst
    | cons r rest ih =>
      intro st hcs hst
      exact ih _ (fun r' hr' => hcs r' (List.mem_cons_of_mem _ hr'))
        (processResult_typed u fields st r (hcs r (List.mem_cons_self _ _)) hst)
  have hpost : ∀ (lf : List String) (m : List (String × JVal)), TypedList m →
      TypedList (lf.foldl
        (fun merged field =>
          match alookup merged field with
          | some (JVal.arr xs) =>
            aset merged field (.arr (deduplicate_with_llm xs field (oracle field xs)))
          | _ => merged)
        m) := by
    intro lf
    induction lf with
    | nil => intro m hm; exact hm
    | cons f rest ih =>
      intro m hm
      rw [List.foldl_cons]
      refine ih _ ?_
      dsimp only
      cases hl : alookup m f with
      | none => exact hm
      | some v =>
        cases v with
        | arr xs => exact TypedList_aset hm (by rfl) f
        | str s => exact hm
        | obj kvs => exact hm
        | other r t => exact hm
  exact hpost _ _ (hmain chunk_results _ h hinit)

lemma validate_fields_core_lookup (data : List (String × JVal)) (u : String) :
    ∀ (fields : List String) (f : String),
      alookup (validate_fields_core data fields u) f =
        if f ∈ fields then
          some ((alookup data f).getD (.str u))
        else none := by
  unfold validate_fields_core
  have main : ∀ (fs : List String) (acc : List (String × JVal)) (f : String),
      alookup (fs.foldl
        (fun validated field =>
          match alookup data field with
          | some v => aset validated field v
          | none => aset validated field (.str u)) acc) f =
      if f ∈ fs then some ((alookup data f).getD (.str u)) else alookup acc f := by
    intro fs
    induction fs with
    | nil => intro acc f; simp
    | cons g rest ih =>
      intro acc f
      rw [List.foldl_cons, ih]
      by_cases hf : f ∈ rest
      · simp [hf, List.mem_cons]
      · by_cases hfg : f = g
        · subst hfg
          simp only [hf, if_false, List.mem_cons, true_or, if_true]
          cases hd : alookup data f with
          | none => simp [alookup_aset, hd]
          | some v => simp [alookup_aset, hd]
        · have : ¬ (f ∈ g :: rest) := by
            simp [List.mem_cons, hfg, hf]
          have hgf : ¬ (g = f) := fun hc => hfg hc.symm
          simp only [hf, if_false, this, if_false]
          cases hd : alookup data g with
          | none => simp [alookup_aset, hgf]
          | some v => simp [alookup_aset, hgf]
  intro fields f
  rw [main fields [] f]
  simp [alookup]

/-- The three mutually exclusive states of a final field value. -/
def sentinelState (u : String) (v : JVal) : Prop := v = JVal.str u

/-- A scalar (non-sentinel) string state. -/
def scalarState (u : String) (v : JVal) : Prop := ∃ s, v = JVal.str s ∧ s ≠ u

/-- A list state. -/
def listState (v : JVal) : Prop := ∃ xs, v = JVal.arr xs

/-- C2: after merging and validating, the record's key set is exactly the
requested field list, and every value is in exactly one of the three states
sentinel / scalar string / list — provided each chunk result is a FieldMap
(its values are scalar strings or lists), as the data model prescribes. -/
theorem merged_record_total_and_exclusive
    (chunk_results : List (Option (List (String × JVal)))) (fields : List String)
    (u : String) (oracle : String → List JVal → Except Unit JVal)
    (h : ∀ r ∈ chunk_results, ∀ m, r = some m → ∀ kv ∈ m, wellTyped kv.2 = true) :
    (∀ f, (alookup (validate_fields_core
        (merge_results_core chunk_results fields u oracle) fields u) f).isSome ↔
      f ∈ fields) ∧
    (∀ f v, alookup (validate_fields_core
        (merge_results_core chunk_results fields u oracle) fields u) f = some v →
      (sentinelState u v ∧ ¬ scalarState u v ∧ ¬ listState v) ∨
      (¬ sentinelState u v ∧ scalarState u v ∧ ¬ listState v) ∨
      (¬ sentinelState u v ∧ ¬ scalarState u v ∧ listState v)) := by
  have htyped : TypedList (merge_results_core chunk_results fields u oracle) :=
    merge_results_core_typed chunk_results fields u oracle h
  constructor
  · intro f
    rw [validate_fields_core_lookup]
    by_cases hf : f ∈ fields
    · simp [hf]
    · simp [hf]
  · intro f v hlook
    rw [validate_fields_core_lookup] at hlook
    by_cases hf : f ∈ fields
    · rw [if_pos hf] at hlook
      have hv : wellTyped v = true := by
        cases hd : alookup (merge_results_core chunk_results fields u oracle) f with
        | none =>
          rw [hd] at hlook
          simp only [Option.getD] at hlook
          have : v = JVal.str u := by
            injection hlook with h'
            exact h'.symm
          rw [this]; rfl
        | some w =>
          rw [hd] at hlook
          simp only [Option.getD] at hlook
          have : v = w := by
            injection hlook with h'
            exact h'.symm
          rw [this]
          exact htyped _ (alookup_mem _ _ _ hd)
      cases v with
      | str s =>
        by_cases hs : s = u
        · subst hs
          refine Or.inl ⟨rfl, ?_, ?_⟩
          · rintro ⟨s', hs', hne⟩
            exact hne (JVal.str.inj hs').symm
          · rintro ⟨xs, hxs⟩
            exact JVal.noConfusion hxs
        · refine Or.inr (Or.inl ⟨?_, ⟨s, rfl, hs⟩, ?_⟩)
          · intro hc
            exact hs (JVal.str.inj hc)
          · rintro ⟨xs, hxs⟩
            exact JVal.noConfusion hxs
      | arr xs =>
        refine Or.inr (Or.inr ⟨?_, ?_, ⟨xs, rfl⟩⟩)
        · intro hc
          exact JVal.noConfusion hc
        · rintro ⟨s', hs', _⟩
          exact JVal.noConfusion hs'
      | obj kvs => exact absurd hv (by simp [wellTyped, isStr, isArr])
      | other r t => exact absurd hv (by simp [wellTyped, isStr, isArr])
    · rw [if_neg hf] at hlook
      exact Option.noConfusion hlook

/-- Concrete run of the C2 theorem: two fields, one extracted value — the
validated record has exactly the requested keys, in the three-state shape. -/
theorem merged_record_total_and_exclusive_witness :
    (∀ f, (alookup (validate_fields_core
        (merge_results_core [some [("a", JVal.str "1")], none] ["a", "b"] "unknown"
          (fun _ _ => Except.error ())) ["a", "b"] "unknown") f).isSome ↔
      f ∈ ["a", "b"]) ∧
    (∀ f v, alookup (validate_fields_core
        (merge_results_core [some [("a", JVal.str "1")], none] ["a", "b"] "unknown"
          (fun _ _ => Except.error ())) ["a", "b"] "unknown") f = some v →
      (sentinelState "unknown" v ∧ ¬ scalarState "unknown" v ∧ ¬ listState v) ∨
      (¬ sentinelState "unknown" v ∧ scalarState "unknown" v ∧ ¬ listState v) ∨
      (¬ sentinelState "unknown" v ∧ ¬ scalarState "unknown" v ∧ listState v)) :=
  merged_record_total_and_exclusive [some [("a", JVal.str "1")], none] ["a", "b"]
    "unknown" (fun _ _ => Except.error ())
    (by
      intro r hr m hm kv hkv
      simp at hr
      rcases hr with hr | hr
      · rw [hr] at hm
        injection hm with hm
        rw [← hm] at hkv
        simp at hkv
        rw [hkv]
        rfl
      · rw [hr] at hm
        exact Option.noConfusion hm)

/-- C3: for a requested field whose name contains `phone` and matches no
list-lexicon keyword, merging the two conflicting scalar phone renderings in
either segment order yields `"(555) 123-4567"`: in one order the
normalized-equality rule with the formatting-quality tiebreak fires (same
digits, better formatting), in the other the strictly-longer rule already
picks the better-formatted value. -/
theorem merge_results_phone_conflict (f u : String)
    (oracle : String → List JVal → Except Unit JVal)
    (hphone : strIn "phone" (strLower f) = true)
    (hlex : _is_list_field f = false)
    (hu1 : u ≠ "(555) 123-4567") (hu2 : u ≠ "555-123-4567") :
    alookup (merge_results_core
        [some [(f, JVal.str "(555) 123-4567")], some [(f, JVal.str "555-123-4567")]]
        [f] u oracle) f = some (JVal.str "(555) 123-4567") ∧
    alookup (merge_results_core
        [some [(f, JVal.str "555-123-4567")], some [(f, JVal.str "(555) 123-4567")]]
        [f] u oracle) f = some (JVal.str "(555) 123-4567") := by
  have hferr : ¬ (f = "error") := by
    intro hc
    rw [hc] at hphone
    exact absurd hphone (by decide)
  have hlook_self : ∀ (v : JVal), alookup [(f, v)] f = some v := by
    intro v; simp [alookup]
  have hlook_err : ∀ (v : JVal), alookup [(f, v)] "error" = none := by
    intro v; simp [alookup, hferr]
  have haset_self : ∀ (w v : JVal), aset [(f, w)] f v = [(f, v)] := by
    intro w v; simp [aset]
  have hv1u : ¬ (JVal.str "(555) 123-4567" = JVal.str u) := by
    intro hc; exact hu1 (JVal.str.inj hc).symm
  have hv2u : ¬ (JVal.str "555-123-4567" = JVal.str u) := by
    intro hc; exact hu2 (JVal.str.inj hc).symm
  have hinit : ([f].foldl (fun m g => aset m g (JVal.str u)) []) = [(f, JVal.str u)] := rfl
  have hfirst : ∀ (w : JVal), ¬ (w = JVal.str u) →
      processResult u [f] ⟨[(f, JVal.str u)], []⟩ (some [(f, w)]) =
        ⟨[(f, w)], []⟩ := by
    intro w hw
    unfold processResult
    dsimp only
    rw [if_neg (by simp : ¬ ([(f, w)].isEmpty = true))]
    rw [hlook_err w]
    simp only [Option.isSome_none, Bool.false_eq_true, if_false, List.foldl_cons,
      List.foldl_nil]
    unfold processField
    rw [hlook_self w]
    dsimp only
    rw [if_neg hw, hlook_self (JVal.str u)]
    dsimp only
    rw [if_pos rfl, haset_self]
  have hnorm : _normalize_field (JVal.str "555-123-4567") f =
      _normalize_field (JVal.str "(555) 123-4567") f := by
    unfold _normalize_field
    dsimp only [pyStr]
    rw [if_pos hphone, if_pos hphone]
    decide
  have hscore2 : _format_quality_score (JVal.str "555-123-4567") f = 1 := by
    unfold _format_quality_score
    dsimp only [pyStr]
    rw [if_pos hphone]
    decide
  have hscore1 : _format_quality_score (JVal.str "(555) 123-4567") f = 2 := by
    unfold _format_quality_score
    dsimp only [pyStr]
    rw [if_pos hphone]
    decide
  have hconflictA : processResult u [f] ⟨[(f, JVal.str "(555) 123-4567")], []⟩
      (some [(f, JVal.str "555-123-4567")]) =
      ⟨[(f, JVal.str "(555) 123-4567")], []⟩ := by
    unfold processResult
    dsimp only
    rw [if_neg (by simp : ¬ ([(f, JVal.str "555-123-4567")].isEmpty = true))]
    rw [hlook_err (JVal.str "555-123-4567")]
    simp only [Option.isSome_none, Bool.false_eq_true, if_false, List.foldl_cons,
      List.foldl_nil]
    unfold processField
    rw [hlook_self (JVal.str "555-123-4567")]
    dsimp only
    rw [if_neg hv2u, hlook_self (JVal.str "(555) 123-4567")]
    dsimp only
    rw [if_neg hv1u, if_neg (by decide : ¬ (JVal.str "(555) 123-4567" =
      JVal.str "555-123-4567"))]
    rw [if_neg (by decide : ¬ (isArr (JVal.str "555-123-4567") = true ∨
      isArr (JVal.str "(555) 123-4567") = true))]
    rw [if_neg (by simp [hlex] : ¬ (f ∈ ([] : List String) ∨ _is_list_field f = true))]
    rw [if_neg (by decide : ¬ ((pyStr (JVal.str "555-123-4567")).length >
      (pyStr (JVal.str "(555) 123-4567")).length))]
    rw [if_neg (by decide : ¬ (strIn (pyStr (JVal.str "555-123-4567"))
      (pyStr (JVal.str "(555) 123-4567")) = true))]
    rw [if_neg (by decide : ¬ (strIn (pyStr (JVal.str "(555) 123-4567"))
      (pyStr (JVal.str "555-123-4567")) = true))]
    rw [if_pos hnorm]
    rw [if_neg (by rw [hscore1, hscore2]; omega : ¬ (_format_quality_score
      (JVal.str "555-123-4567") f > _format_quality_score
      (JVal.str "(555) 123-4567") f))]
  have hconflictB : processResult u [f] ⟨[(f, JVal.str "555-123-4567")], []⟩
      (some [(f, JVal.str "(555) 123-4567")]) =
      ⟨[(f, JVal.str "(555) 123-4567")], []⟩ := by
    unfold processResult
    dsimp only
    rw [if_neg (by simp : ¬ ([(f, JVal.str "(555) 123-4567")].isEmpty = true))]
    rw [hlook_err (JVal.str "(555) 123-4567")]
    simp only [Option.isSome_none, Bool.false_eq_true, if_false, List.foldl_cons,
      List.foldl_nil]
    unfold processField
    rw [hlook_self (JVal.str "(555) 123-4567")]
    dsimp only
    rw [if_neg hv1u, hlook_self (JVal.str "555-123-4567")]
    dsimp only
    rw [if_neg hv2u, if_neg (by decide : ¬ (JVal.str "555-123-4567" =
      JVal.str "(555) 123-4567"))]
    rw [if_neg (by decide : ¬ (isArr (JVal.str "(555) 123-4567") = true ∨
      isArr (JVal.str "555-123-4567") = true))]
    rw [if_neg (by simp [hlex] : ¬ (f ∈ ([] : List String) ∨ _is_list_field f = true))]
    rw [if_pos (by decide : (pyStr (JVal.str "(555) 123-4567")).length >
      (pyStr (JVal.str "555-123-4567")).length)]
    rw [haset_self]
  constructor
  · show alookup (merge_results_core _ _ _ _) f = _
    unfold merge_results_core
    dsimp only
    rw [hinit, List.foldl_cons, List.foldl_cons, List.foldl_nil]
    rw [hfirst (JVal.str "(555) 123-4567") hv1u, hconflictA]
    dsimp only
    rw [List.foldl_nil, hlook_self]
  · show alookup (merge_results_core _ _ _ _) f = _
    unfold merge_results_core
    dsimp only
    rw [hinit, List.foldl_cons, List.foldl_cons, List.foldl_nil]
    rw [hfirst (JVal.str "555-123-4567") hv2u, hconflictB]
    dsimp only
    rw [List.foldl_nil, hlook_self]

/-- Concrete run of the C3 theorem at field name `phone`, sentinel
`unknown`. -/
theorem merge_results_phone_conflict_witness :
    alookup (merge_results_core
        [some [("phone", JVal.str "(555) 123-4567")],
         some [("phone", JVal.str "555-123-4567")]]
        ["phone"] "unknown" (fun _ _ => Except.error ())) "phone" =
      some (JVal.str "(555) 123-4567") ∧
    alookup (merge_results_core
        [some [("phone", JVal.str "555-123-4567")],
         some [("phone", JVal.str "(555) 123-4567")]]
        ["phone"] "unknown" (fun _ _ => Except.error ())) "phone" =
      some (JVal.str "(555) 123-4567") :=
  merge_results_phone_conflict "phone" "unknown" (fun _ _ => Except.error ())
    (by decide) (by decide) (by decide) (by decide)

/-! ### Deduplicator shape analysis (C8) -/

lemma exactDedup_length_le (items : List JVal) :
    (exactDedup items).length ≤ items.length := by
  unfold exactDedup
  have main : ∀ (l acc : List JVal),
      (l.foldl (fun acc x => if acc.contains x then acc else acc ++ [x]) acc).length ≤
        acc.length + l.length := by
    intro l
    induction l with
    | nil => intro acc; simp
    | cons x rest ih =>
      intro acc
      rw [List.foldl_cons]
      by_cases h : acc.contains x
      · rw [if_pos h]
        have := ih acc
        simp only [List.length_cons]
        omega
      · rw [if_neg h]
        have := ih (acc ++ [x])
        simp only [List.length_append, List.length_cons, List.length_nil] at this ⊢
        omega
  have := main items []
  simpa using this

/-- The three response shapes the claim lists as accepted: a flat string
array, a single-key record wrapping an array, a list of dictionaries. -/
def origAcceptedShape : JVal → Bool
  | .arr xs => xs.all isStr || xs.all isObj
  | .obj [(_, .arr _)] => true
  | _ => false

/-- The response shapes that `deduplicate_with_llm` actually processes
without falling back: any record carrying key `deduplicated_items` with an
array value (single-key or not); an array free of the literal string
`"deduplicated_items"` that is headed by such a record, or is all
dictionaries, or is all strings. -/
def acceptedResponseShape : JVal → Bool
  | .obj kvs =>
    (match alookup kvs "deduplicated_items" with
     | some (.arr _) => true
     | _ => false)
  | .arr xs =>
    !(xs.contains (.str "deduplicated_items")) &&
      (match xs with
       | JVal.obj kvs0 :: _ =>
         if (alookup kvs0 "deduplicated_items").isSome then
           (match alookup kvs0 "deduplicated_items" with
            | some (.arr _) => true
            | _ => false)
         else xs.all isObj || xs.all isStr
       | _ => xs.all isObj || xs.all isStr)
  | _ => false

/-- C8 counterexample: a *two-key* record carrying `deduplicated_items` is
none of the claim's accepted shapes, yet `deduplicate_with_llm` returns its
wrapped array rather than the exact-dedup fallback. -/
theorem deduplicate_processes_unlisted_shape :
    deduplicate_with_llm [JVal.str "x", JVal.str "y"] "notes"
      (Except.ok (JVal.obj [("deduplicated_items", JVal.arr [JVal.str "a"]),
        ("z", JVal.str "b")])) = [JVal.str "a"] ∧
    origAcceptedShape (JVal.obj [("deduplicated_items", JVal.arr [JVal.str "a"]),
      ("z", JVal.str "b")]) = false ∧
    2 ≤ (exactDedup [JVal.str "x", JVal.str "y"]).length ∧
    [JVal.str "a"] ≠ exactDedup [JVal.str "x", JVal.str "y"] := by
  refine ⟨by decide, by decide, by decide, by decide⟩

/-- C8 (amended): for an item list with at least two distinct entries,
whenever the backend call raises or returns any shape outside the ones the
code processes (`acceptedResponseShape`), `deduplicate_with_llm` returns the
input with exact duplicates removed in first-seen order; it never raises (it
is a total function of the response). -/
theorem deduplicate_falls_back_on_unaccepted (items : List JVal)
    (field_name : String) (resp : Except Unit JVal)
    (hdistinct : 2 ≤ (exactDedup items).length)
    (hbad : resp = Except.error () ∨
      ∃ r, resp = Except.ok r ∧ acceptedResponseShape r = false) :
    deduplicate_with_llm items field_name resp = exactDedup items := by
  have hne : ¬ (items.isEmpty = true) := by
    intro hc
    rw [List.isEmpty_iff] at hc
    rw [hc] at hdistinct
    exact absurd hdistinct (by decide)
  have hlen1 : ¬ (items.length = 1) := by
    intro hc
    have := exactDedup_length_le items
    omega
  unfold deduplicate_with_llm
  rw [if_neg hne, if_neg hlen1]
  dsimp only
  rw [if_neg (by omega : ¬ ((exactDedup items).length = 1))]
  rcases hbad with h | ⟨r, hr, hshape⟩
  · rw [h]
  · rw [hr]
    cases r with
    | obj kvs =>
      simp only [acceptedResponseShape] at hshape
      cases hl : alookup kvs "deduplicated_items" with
      | none =>
        dsimp only
        rw [hl]
        simp only [Option.isSome_none, Bool.false_eq_true, if_false]
        rfl
      | some v =>
        rw [hl] at hshape
        cases v with
        | arr xs => exact absurd hshape (by simp)
        | str s =>
          dsimp only
          rw [hl]
          rfl
        | obj kvs2 =>
          dsimp only
          rw [hl]
          rfl
        | other rr tt =>
          dsimp only
          rw [hl]
          rfl
    | arr xs =>
      simp only [acceptedResponseShape] at hshape
      cases hc : xs.contains (.str "deduplicated_items") with
      | true =>
        dsimp only
        rw [hc]
        rfl
      | false =>
        rw [hc] at hshape
        simp only [Bool.not_false, Bool.true_and] at hshape
        dsimp only
        rw [hc]
        simp only [Bool.false_eq_true, if_false]
        unfold dedupElseBranch
        dsimp only
        cases xs with
        | nil => simp [isObj] at hshape
        | cons x rest =>
          cases x with
          | obj kvs0 =>
            dsimp only at hshape ⊢
            generalize hl : alookup kvs0 "deduplicated_items" = lkup at hshape ⊢
            cases lkup with
            | none =>
              simp only [Option.isSome_none, Bool.false_eq_true, if_false] at hshape ⊢
              rw [Bool.or_eq_false_iff] at hshape
              rw [if_neg (by rw [hshape.1]; exact Bool.false_ne_true),
                if_neg (by rw [hshape.2]; exact Bool.false_ne_true)]
            | some v =>
              simp only [Option.isSome_some, if_true] at hshape ⊢
              cases v with
              | arr nested => exact absurd hshape (by simp)
              | str s => rfl
              | obj kvs2 => rfl
              | other rr tt => rfl
          | str s =>
            dsimp only at hshape ⊢
            simp only [Bool.or_eq_false_iff] at hshape
            rw [if_neg (by rw [hshape.1]; exact Bool.false_ne_true),
              if_neg (by rw [hshape.2]; exact Bool.false_ne_true)]
          | arr ys =>
            dsimp only at hshape ⊢
            simp only [Bool.or_eq_false_iff] at hshape
            rw [if_neg (by rw [hshape.1]; exact Bool.false_ne_true),
              if_neg (by rw [hshape.2]; exact Bool.false_ne_true)]
          | other rr tt =>
            dsimp only at hshape ⊢
            simp only [Bool.or_eq_false_iff] at hshape
            rw [if_neg (by rw [hshape.1]; exact Bool.false_ne_true),
              if_neg (by rw [hshape.2]; exact Bool.false_ne_true)]
    | str s =>
      cases hc : strIn "deduplicated_items" s with
      | true =>
        dsimp only
        rw [hc]
        rfl
      | false =>
        dsimp only
        rw [hc]
        simp only [Bool.false_eq_true, if_false]
        rfl
    | other rr tt => rfl

/-- Concrete run of the C8 theorem: a raised backend call degrades to the
first-seen exact dedup. -/
theorem deduplicate_falls_back_on_unaccepted_witness :
    deduplicate_with_llm [JVal.str "x", JVal.str "y", JVal.str "x"] "skills"
      (Except.error ()) = exactDedup [JVal.str "x", JVal.str "y", JVal.str "x"] :=
  deduplicate_falls_back_on_unaccepted [JVal.str "x", JVal.str "y", JVal.str "x"]
    "skills" (Except.error ()) (by decide) (Or.inl rfl)

/-! ### Date normalization (`src/utils/validators.py`, `normalize_date`)

`datetime.strptime` is modelled for the format directives this module uses
(`%d %m %Y %B %b` and literal separators), following CPython `_strptime`:
`%d` is `(3[01]|[12]\d|0[1-9]|[1-9])`, `%m` is `(1[0-2]|0[1-9]|[1-9])`,
`%Y` is exactly four digits, `%B`/`%b` match (case-insensitively) a full or
abbreviated month name, a whitespace run in the format matches one or more
whitespace characters, the whole string must be consumed, and the resulting
date must be a valid calendar date (else `ValueError`, i.e. the format
fails).  The source's regex fallback block only `pass`es and binds no
result, so it is omitted.  Settings default: `DATE_FORMAT = "dd/mm/YYYY"`. -/

def settingsDATE_FORMAT : String := "dd/mm/YYYY"

/-- A `strptime`/`strftime` format token. -/
inductive FTok where
  | D
  | M
  | Y
  | Bfull
  | Babbr
  | Ws
  | lit (c : Char)

/-- Tokenize a format string; an unsupported directive makes `strptime`
raise `ValueError`, i.e. the format fails (`none`). -/
def fmtToks : List Char → Option (List FTok)
  | [] => some []
  | '%' :: c :: rest =>
    (match c with
     | 'd' => some FTok.D
     | 'm' => some FTok.M
     | 'Y' => some FTok.Y
     | 'B' => some FTok.Bfull
     | 'b' => some FTok.Babbr
     | _ => none).bind
      (fun t => (fmtToks rest).map (fun ts => t :: ts))
  | ['%'] => none
  | c :: rest =>
    (fmtToks rest).map
      (fun ts => (if c.isWhitespace then FTok.Ws else FTok.lit c) :: ts)

/-- Partially filled parse result (`strptime` defaults: 1900-01-01). -/
structure PDate where
  day : Option Nat
  month : Option Nat
  year : Option Nat

def full_month_names : List String :=
  ["january", "february", "march", "april", "may", "june", "july",
   "august", "september", "october", "november", "december"]

def abbr_month_names : List String :=
  ["jan", "feb", "mar", "apr", "may", "jun", "jul", "aug", "sep", "oct",
   "nov", "dec"]

/-- Case-insensitively match one of `names` as a prefix of the input,
returning its 1-based position and the rest of the input.  (No month name is
a prefix of another, so first-match equals the regex alternation.) -/
def matchNameFrom : List String → Nat → List Char → Option (Nat × List Char)
  | [], _, _ => none
  | n :: rest, i, cs =>
    if charsPrefixOf n.data (cs.map Char.toLower) then
      some (i + 1, cs.drop n.data.length)
    else
      matchNameFrom rest (i + 1) cs

/-- Digit value of an ASCII digit character. -/
def digitVal (c : Char) : Nat := c.toNat - 48

/-- The regex matcher for a token list, with the backtracking of the
two-digit-then-one-digit alternations of `%d` and `%m`. -/
def parseToks : List FTok → List Char → PDate → Option PDate
  | [], [], st => some st
  | [], _ :: _, _ => none
  | FTok.lit c :: ts, x :: cs, st =>
    if x = c then parseToks ts cs st else none
  | FTok.lit _ :: _, [], _ => none
  | FTok.Ws :: ts, x :: cs, st =>
    if x.isWhitespace then parseToks ts ((x :: cs).dropWhile Char.isWhitespace) st
    else none
  | FTok.Ws :: _, [], _ => none
  | FTok.D :: ts, cs, st =>
    (match cs with
     | a :: b :: rest =>
       if a.isDigit ∧ b.isDigit then
         let v := digitVal a * 10 + digitVal b
         if 1 ≤ v ∧ v ≤ 31 then parseToks ts rest { st with day := some v }
         else none
       else none
     | _ => none) <|>
    (match cs with
     | a :: rest =>
       if a.isDigit ∧ a ≠ '0' then parseToks ts rest { st with day := some (digitVal a) }
       else none
     | [] => none)
  | FTok.M :: ts, cs, st =>
    (match cs with
     | a :: b :: rest =>
       if a.isDigit ∧ b.isDigit then
         let v := digitVal a * 10 + digitVal b
         if 1 ≤ v ∧ v ≤ 12 then parseToks ts rest { st with month := some v }
         else none
       else none
     | _ => none) <|>
    (match cs with
     | a :: rest =>
       if a.isDigit ∧ a ≠ '0' then
         parseToks ts rest { st with month := some (digitVal a) }
       else none
     | [] => none)
  | FTok.Y :: ts, cs, st =>
    (match cs with
     | a :: b :: c :: d :: rest =>
       if a.isDigit ∧ b.isDigit ∧ c.isDigit ∧ d.isDigit then
         let yv := digitVal a * 1000 + digitVal b * 100 + digitVal c * 10 + digitVal d
         parseToks ts rest { st with year := some yv }
       else none
     | _ => none)
  | FTok.Bfull :: ts, cs, st =>
    (match matchNameFrom full_month_names 0 cs with
     | some (mo, rest) => parseToks ts rest { st with month := some mo }
     | none => none)
  | FTok.Babbr :: ts, cs, st =>
    (match matchNameFrom abbr_month_names 0 cs with
     | some (mo, rest) => parseToks ts rest { st with month := some mo }
     | none => none)

def isLeapYear (y : Nat) : Bool :=
  y % 4 = 0 && (y % 100 ≠ 0 || y % 400 = 0)

def daysInMonth (y m : Nat) : Nat :=
  if m = 2 then (if isLeapYear y then 29 else 28)
  else if m = 4 ∨ m = 6 ∨ m = 9 ∨ m = 11 then 30
  else 31

/-- `datetime.strptime(date_str, fmt)`, returning `(year, month, day)`, or
`none` for any `ValueError` (no match, unconverted data, bad directive, or
an invalid calendar date). -/
def strptime (date_str : String) (fmt : String) : Option (Nat × Nat × Nat) :=
  match fmtToks fmt.data with
  | none => none
  | some toks =>
    match parseToks toks date_str.data ⟨none, none, none⟩ with
    | none => none
    | some st =>
      let d := st.day.getD 1
      let m := st.month.getD 1
      let y := st.year.getD 1900
      if 1 ≤ y ∧ y ≤ 9999 ∧ 1 ≤ m ∧ m ≤ 12 ∧ 1 ≤ d ∧ d ≤ daysInMonth y m then
        some (y, m, d)
      else none

/-- The ordered candidate formats of `normalize_date`. -/
def dateFormats : List String :=
  ["%d/%m/%Y", "%m/%d/%Y", "%Y-%m-%d",
   "%d-%m-%Y", "%m-%d-%Y",
   "%d.%m.%Y", "%m.%d.%Y",
   "%B %d, %Y", "%d %B %Y",
   "%b %d, %Y", "%d %b %Y",
   "%d %b, %Y", "%b %d %Y"]

/-- Two-digit zero-padded rendering (`%d`, `%m`). -/
def pad2 (n : Nat) : List Char :=
  [Char.ofNat (48 + n / 10 % 10), Char.ofNat (48 + n % 10)]

/-- Four-digit zero-padded rendering (`%Y`). -/
def pad4 (y : Nat) : List Char :=
  [Char.ofNat (48 + y / 1000 % 10), Char.ofNat (48 + y / 100 % 10),
   Char.ofNat (48 + y / 10 % 10), Char.ofNat (48 + y % 10)]

/-- `parsed_date.strftime(py_format)` for the directives this module can
produce (`%d`, `%m`, `%Y`; others pass through untouched — the pipeline's
target formats only contain these three). -/
def strftimeGo : List Char → Nat → Nat → Nat → List Char
  | [], _, _, _ => []
  | '%' :: c :: rest, y, m, d =>
    (match c with
     | 'd' => pad2 d
     | 'm' => pad2 m
     | 'Y' => pad4 y
     | '%' => ['%']
     | other => ['%', other]) ++ strftimeGo rest y m d
  | c :: rest, y, m, d => c :: strftimeGo rest y m d

/-- `normalize_date(date_str, date_format)` with the format already
resolved: reformat through the first candidate format that parses, else
return the input unchanged.  (The source's dead regex-extraction block sets
nothing and is omitted.) -/
def normalize_date_core (date_str : String) (date_format : String) : String :=
  let py_format :=
    pyReplace (pyReplace (pyReplace date_format "dd" "%d") "mm" "%m") "YYYY" "%Y"
  match dateFormats.findSome? (fun fmt => strptime date_str fmt) with
  | some (y, m, d) => ⟨strftimeGo py_format.data y m d⟩
  | none => date_str

/-- `normalize_date` with the Python `or` default for `date_format`. -/
def normalize_date (date_str : String) (date_format : Option String) : String :=
  normalize_date_core date_str (resolveStr date_format settingsDATE_FORMAT)

/-- C9: `normalize_date` either reformats its input through the first
candidate format that parses, or returns it unchanged when none does (it
never raises); with the `dd/mm/YYYY` target, `"Feb 9, 1949"` becomes
`"09/02/1949"` and `"a long time ago"` is returned unchanged. -/
theorem normalize_date_first_format_or_unchanged :
    (∀ (s fmt : String),
      (∃ ymd, dateFormats.findSome? (fun f => strptime s f) = some ymd ∧
        normalize_date_core s fmt =
          ⟨strftimeGo (pyReplace (pyReplace (pyReplace fmt "dd" "%d") "mm" "%m")
            "YYYY" "%Y").data ymd.1 ymd.2.1 ymd.2.2⟩) ∨
      (dateFormats.findSome? (fun f => strptime s f) = none ∧
        normalize_date_core s fmt = s)) ∧
    normalize_date "Feb 9, 1949" (some "dd/mm/YYYY") = "09/02/1949" ∧
    normalize_date "a long time ago" (some "dd/mm/YYYY") = "a long time ago" := by
  refine ⟨?_, by decide, by decide⟩
  intro s fmt
  cases h : dateFormats.findSome? (fun f => strptime s f) with
  | none =>
    refine Or.inr ⟨rfl, ?_⟩
    unfold normalize_date_core
    rw [h]
  | some ymd =>
    obtain ⟨y, m, d⟩ := ymd
    refine Or.inl ⟨(y, m, d), rfl, ?_⟩
    unfold normalize_date_core
    rw [h]

end ExtractorMerger
